import Mathlib

/-!
Ceramic native interop shims.

Shallow embedding of three native adapters of the ceramic engine:

* `sample/gen/android/linc/linc_Http.cpp`: the two JNI callback entry points;
* `tools/src/linc/linc_ceramic.cpp`: `file_utime`, `file_utime_now`, `executable_path`;
* `plugins/clay/runtime/src/backend/linc/linc_NativeWindows.cpp`: `NativeWindows_init`.

Functions of hxcpp, of the bind support library and of the operating system are
not part of these files. They are fields of an environment record (`Runtime`,
`Libc`, `Os`, `WinApi`), so a theorem about an adapter holds for every behaviour
of its collaborators; concrete environments (`tableRuntime`, `posixLibc`,
`clampingLibc`, `failingOs`, `linuxOs`, `fullArrayOs`) each fix one behaviour of
the collaborators, described with the definition, and serve as inputs on which
the adapters are evaluated.
-/

namespace Ceramic

/-! ## Outcomes of a native call -/

/-- Ways in which a C++ function leaves the defined behaviour of the language. -/
inductive Fault
  | nullDereference
  | outOfBoundsWrite (index size : Nat)
  | unterminatedRead
  | castOutOfRange
  deriving DecidableEq, Repr

/-- How a native function is left: a normal return, a propagating Haxe/C++
exception, or a fault. -/
inductive Completion (α : Type)
  | returned (value : α)
  | raised (exception : String)
  | fault (f : Fault)
  deriving DecidableEq, Repr

/-! ## JNI callback entry points (linc_Http.cpp) -/

/-- A `jstring` argument of a native method: NULL or a Java string. -/
abbrev jstring := Option String

/-- The hxcpp `::String`: the null string or a text. -/
abbrev HxString := Option String

/-- A non-null reference to a managed object. -/
abbrev ObjRef := Nat

/-- The hxcpp `::Dynamic`: null or a reference to a managed object. -/
abbrev Dynamic := Option ObjRef

/-- The `int *` handed to `hx::SetTopOfStack`: the null pointer `(int *)0`, or the
address of a live local variable (recorded with the value it holds). -/
inductive StackPtr
  | null
  | addrOfLocal (value : Int)
  deriving DecidableEq, Repr

/-- Calls that an entry point makes into hxcpp and the bind support library, in
the order in which they are made. -/
inductive Effect
  | SetTopOfStack (inTop : StackPtr) (inForce : Bool)
  | JStringToHxcpp (s : jstring)
  | JStringToHObject (address : jstring)
  | unwrap (wrapped : Dynamic)
  | run (callback : ObjRef) (arg : HxString)
  deriving DecidableEq, Repr

/-- The collaborators of the entry points, over a state `σ` of the managed
runtime (heap, handle table, thread registry). Every collaborator that runs
managed code may change the state and may raise. -/
structure Runtime (σ : Type) where
  /-- Models `hx::SetTopOfStack(int *inTop, bool inForce)`. -/
  SetTopOfStack : StackPtr → Bool → σ → σ
  /-- Models `::bind::jni::JStringToHxcpp(jstring)`. -/
  JStringToHxcpp : jstring → HxString
  /-- Models `::bind::jni::JStringToHObject(jstring)`. -/
  JStringToHObject : jstring → σ → Except String Dynamic × σ
  /-- Models `::bind::java::HObject_obj::unwrap(::Dynamic)`. -/
  unwrap : Dynamic → σ → Except String Dynamic × σ
  /-- Models the virtual call `hx::Object::__run(arg)` on a non-null object. -/
  __run : ObjRef → HxString → σ → Except String Unit × σ

/-- Runtime state together with the calls made so far. -/
structure Machine (σ : Type) where
  world : σ
  trace : List Effect

/-- A C++ statement sequence: it either completes normally with a value, or stops
at the first statement that raises or faults. No statement of the modelled
functions catches anything. -/
def Exec (σ α : Type) : Type := Machine σ → Completion α × Machine σ

/-- The value of an expression without effect. -/
def Exec.pure {σ α : Type} (a : α) : Exec σ α := fun m => (.returned a, m)

/-- Sequencing: the rest runs only after a normal completion. -/
def Exec.bind {σ α β : Type} (x : Exec σ α) (f : α → Exec σ β) : Exec σ β := fun m =>
  match x m with
  | (.returned a, m1) => f a m1
  | (.raised e, m1) => (.raised e, m1)
  | (.fault k, m1) => (.fault k, m1)

instance {σ : Type} : Monad (Exec σ) where
  pure := Exec.pure
  bind := Exec.bind

/-- A call of a collaborator that may raise: the call is recorded, the state is
the one the collaborator leaves. -/
def Exec.call {σ α : Type} (e : Effect) (f : σ → Except String α × σ) : Exec σ α := fun m =>
  match f m.world with
  | (.ok v, w) => (.returned v, ⟨w, m.trace ++ [e]⟩)
  | (.error x, w) => (.raised x, ⟨w, m.trace ++ [e]⟩)

/-- The call `hx::SetTopOfStack(inTop, inForce)`. -/
def hx_SetTopOfStack {σ : Type} (rt : Runtime σ) (inTop : StackPtr) (inForce : Bool) :
    Exec σ Unit := fun m =>
  (.returned (), ⟨rt.SetTopOfStack inTop inForce m.world, m.trace ++ [.SetTopOfStack inTop inForce]⟩)

/-- The call `::bind::jni::JStringToHxcpp(s)`. -/
def bind_jni_JStringToHxcpp {σ : Type} (rt : Runtime σ) (s : jstring) : Exec σ HxString :=
  fun m => (.returned (rt.JStringToHxcpp s), ⟨m.world, m.trace ++ [.JStringToHxcpp s]⟩)

/-- The call `::bind::jni::JStringToHObject(address)`. -/
def bind_jni_JStringToHObject {σ : Type} (rt : Runtime σ) (address : jstring) :
    Exec σ Dynamic :=
  Exec.call (.JStringToHObject address) (rt.JStringToHObject address)

/-- The call `::bind::java::HObject_obj::unwrap(wrapped)`. -/
def HObject_obj_unwrap {σ : Type} (rt : Runtime σ) (wrapped : Dynamic) : Exec σ Dynamic :=
  Exec.call (.unwrap wrapped) (rt.unwrap wrapped)

/-- The statement `func->__run(arg)`: `operator->` of a null `Dynamic` yields a
null object pointer, and the virtual call through it is a null dereference (a
build of hxcpp with pointer checks reports the same event as a null object
reference); on an object the callback body runs. -/
def Dynamic_run {σ : Type} (rt : Runtime σ) (func : Dynamic) (arg : HxString) : Exec σ Unit :=
  match func with
  | none => fun m => (.fault .nullDereference, m)
  | some obj => Exec.call (.run obj arg) (rt.__run obj arg)

/-- Embeds `Java_ceramic_support_bind_1Http_callN_1StringVoid` (linc_Http.cpp, lines 32-40).
The parameters `env` and `clazz` are not used by the body. -/
def Java_ceramic_support_bind_1Http_callN_1StringVoid {σ : Type} (rt : Runtime σ)
    (address arg1 : jstring) : Exec σ Unit := do
  let haxe_stack_ : Int := 99
  hx_SetTopOfStack rt (.addrOfLocal haxe_stack_) true
  let arg1_hxcpp_ ← bind_jni_JStringToHxcpp rt arg1
  let func_hobject_ ← bind_jni_JStringToHObject rt address
  let func_unwrapped_ ← HObject_obj_unwrap rt func_hobject_
  Dynamic_run rt func_unwrapped_ arg1_hxcpp_
  hx_SetTopOfStack rt .null true

/-- Embeds `Java_ceramic_support_bind_1Http_callN_1MapVoid` (linc_Http.cpp, lines 42-50).
The parameters `env` and `clazz` are not used by the body. -/
def Java_ceramic_support_bind_1Http_callN_1MapVoid {σ : Type} (rt : Runtime σ)
    (address arg1 : jstring) : Exec σ Unit := do
  let haxe_stack_ : Int := 99
  hx_SetTopOfStack rt (.addrOfLocal haxe_stack_) true
  let arg1_hxcpp_ ← bind_jni_JStringToHxcpp rt arg1
  let func_hobject_ ← bind_jni_JStringToHObject rt address
  let func_unwrapped_ ← HObject_obj_unwrap rt func_hobject_
  Dynamic_run rt func_unwrapped_ arg1_hxcpp_
  hx_SetTopOfStack rt .null true

/-- One invocation of an entry point by the Java side, observed from a state `s`:
how it completed, the calls it made, and the state it left. -/
def invoke {σ : Type} (entry : Exec σ Unit) (s : σ) : Completion Unit × List Effect × σ :=
  match entry ⟨s, []⟩ with
  | (c, m) => (c, m.trace, m.world)

/-- The callback executions in a trace, oldest first. -/
def runsOf : List Effect → List (ObjRef × HxString)
  | [] => []
  | .run f a :: t => (f, a) :: runsOf t
  | _ :: t => runsOf t

/-- The register calls in a trace: `SetTopOfStack` with a non-null address. -/
def registersOf : List Effect → Nat
  | [] => 0
  | .SetTopOfStack (.addrOfLocal _) _ :: t => registersOf t + 1
  | _ :: t => registersOf t

/-- The unregister calls in a trace: `SetTopOfStack` with the null pointer. -/
def unregistersOf : List Effect → Nat
  | [] => 0
  | .SetTopOfStack .null _ :: t => unregistersOf t + 1
  | _ :: t => unregistersOf t

/-- A runtime over a fixed handle table; its state counts the callbacks that
have completed. A token resolves to the object the table holds for it (to null
when it holds none), `unwrap` yields the object itself, and a callback returns
normally unless it is listed as throwing. -/
def tableRuntime (table : List (String × ObjRef)) (throwing : List ObjRef) : Runtime Nat where
  SetTopOfStack := fun _ _ n => n
  JStringToHxcpp := fun s => s
  JStringToHObject := fun address n =>
    match address with
    | none => (.ok none, n)
    | some a => (.ok (table.lookup a), n)
  unwrap := fun d n => (.ok d, n)
  __run := fun f _ n => if f ∈ throwing then (.error "callback failed", n) else (.ok (), n + 1)


/-- Successive invocations of an entry point with one token and a list of
payloads, each invocation starting in the state the previous one left: the
completions, the concatenated trace and the final state. -/
def invokeEach {σ : Type} (entry : jstring → Exec σ Unit) :
    List jstring → σ → List (Completion Unit) × List Effect × σ
  | [], s => ([], [], s)
  | p :: ps, s =>
    match invoke (entry p) s with
    | (c, t, s1) =>
      match invokeEach entry ps s1 with
      | (cs, ts, s2) => (c :: cs, t ++ ts, s2)

/-! ## File times and executable path (linc_ceramic.cpp) -/

/-- A finite, non-negative binary64 value `mant * 2 ^ exp`. -/
structure Binary64 where
  mant : Nat
  exp : Int
  deriving DecidableEq, Repr

/-- The quotient `n / d` rounded to the nearest integer, ties to the even one:
the IEEE-754 default rounding of a significand. -/
def roundNearestEven (n d : Nat) : Nat :=
  if 2 * (n % d) < d then n / d
  else if d < 2 * (n % d) then n / d + 1
  else if (n / d) % 2 = 0 then n / d
  else n / d + 1

/-- The binary logarithm rounded down, by repeated halving; `fuel` bounds the
number of halvings. -/
def log2Fuel : Nat → Nat → Nat
  | 0, _ => 0
  | fuel + 1, n => if 2 ≤ n then log2Fuel fuel (n / 2) + 1 else 0

/-- The binary logarithm rounded down: the position of the leading bit. It is
`Nat.log2`, in a form that evaluates by structural recursion. -/
def ilog2 (n : Nat) : Nat := log2Fuel n n

/-- IEEE-754 binary64 division `x / d` of two positive whole-number doubles,
round to nearest even: the exponent is chosen so that the significand has 53
bits, and the exact quotient is rounded at that exponent. Zero divided by `d` is
zero. The quotient of a whole number of at most 1024 bits by a small whole
number neither overflows nor is subnormal. -/
def double_div (x d : Nat) : Binary64 :=
  if x = 0 then ⟨0, 0⟩
  else
    let a := ilog2 x
    let b := ilog2 d
    let p : Int := if d * 2 ^ a ≤ x * 2 ^ b then (a : Int) - b else (a : Int) - b - 1
    let e : Int := p - 52
    if 0 ≤ e then ⟨roundNearestEven x (d * 2 ^ e.toNat), e⟩
    else ⟨roundNearestEven (x * 2 ^ (-e).toNat) d, e⟩

/-- Whether a whole number is a binary64 value: its leading bit is below
position 1024 and all bits more than 52 positions below the leading bit are zero. -/
def isBinary64 (x : Nat) : Bool :=
  ilog2 x < 1024 && x % 2 ^ (ilog2 x - 52) == 0

/-- The whole part of a non-negative double: the fraction is discarded. -/
def Binary64.trunc (v : Binary64) : Nat :=
  if 0 ≤ v.exp then v.mant * 2 ^ v.exp.toNat else v.mant / 2 ^ (-v.exp).toNat

/-- The conversion `static_cast<time_t>(v)` of a non-negative double to a signed
integer of `TIME_T_BITS` bits: the fraction is discarded, and the conversion is
undefined when the whole part is not a value of the integer type. -/
def static_cast_time_t (TIME_T_BITS : Nat) (v : Binary64) : Option Int :=
  if v.trunc < 2 ^ (TIME_T_BITS - 1) then some (v.trunc : Int) else none

/-- The struct `utimbuf` of utime.h: access and modification time in seconds. -/
structure utimbuf where
  actime : Int
  modtime : Int
  deriving DecidableEq, Repr

/-- Calls into the C library made by the file functions. -/
inductive LibcCall
  | utime (path : String) (times : Option utimbuf)
  deriving DecidableEq, Repr

/-- The C library over a state `σ` of the file system: `utime` returns 0 or -1
and leaves a file system. -/
structure Libc (σ : Type) where
  utime : String → Option utimbuf → σ → Int × σ

/-- What a call of a file function leaves: how it completed, the library calls it
made, and the file system. -/
structure FileCall (σ : Type) where
  completion : Completion Unit
  calls : List LibcCall
  world : σ

/-- Embeds `linc::ceramic::file_utime` (linc_ceramic.cpp, lines 31-41) for a
whole-number, non-negative `mtime`. `TIME_T_BITS` is the width of `time_t`. The
value that `utime` returns is not read. -/
def file_utime {σ : Type} (libc : Libc σ) (TIME_T_BITS : Nat) (path : String) (mtime : Nat)
    (w : σ) : FileCall σ :=
  let cpath := path
  match static_cast_time_t TIME_T_BITS (double_div mtime 1000) with
  | none => ⟨.fault .castOutOfRange, [], w⟩
  | some actime =>
    match static_cast_time_t TIME_T_BITS (double_div mtime 1000) with
    | none => ⟨.fault .castOutOfRange, [], w⟩
    | some modtime =>
      let new_times : utimbuf := ⟨actime, modtime⟩
      ⟨.returned (), [.utime cpath (some new_times)], (libc.utime cpath (some new_times) w).2⟩

/-- Embeds `linc::ceramic::file_utime_now` (linc_ceramic.cpp, lines 43-48). The
value that `utime` returns is not read. -/
def file_utime_now {σ : Type} (libc : Libc σ) (path : String) (w : σ) : FileCall σ :=
  let cpath := path
  ⟨.returned (), [.utime cpath none], (libc.utime cpath none w).2⟩

/-- A file system: the access and modification times of the paths that exist. -/
abbrev Fs := String → Option utimbuf

/-- The `utime` of a file system that stores the times it is given unchanged, at
clock reading `now`: on an existing path the times are set, to `now` when
`times` is NULL, and 0 is returned; on a missing path nothing changes and -1 is
returned. Not every file system stores every time unchanged, see
`clampingLibc`. -/
def posixLibc (now : Int) : Libc Fs where
  utime := fun path times fs =>
    match fs path with
    | none => (-1, fs)
    | some _ =>
      (0, fun p => if p = path then some (times.getD ⟨now, now⟩) else fs p)

/-- The modification time that `stat` reports, in seconds. -/
def st_mtime (fs : Fs) (path : String) : Option Int := (fs path).map (·.modtime)

/-- A file system holding the single file `present`. -/
def oneFile : Fs := fun p => if p = "present" then some ⟨5, 5⟩ else none

/-- The latest time in seconds that an ext4 inode stores: 34 bits of seconds
counted from -2 ^ 31. -/
def EXT4_MAX_SECONDS : Int := 15032385535

/-- The `utime` of a file system that, like ext4, stores no time after
`EXT4_MAX_SECONDS`: the call succeeds with 0 and a later time is stored as
`EXT4_MAX_SECONDS`. -/
def clampingLibc (now : Int) : Libc Fs where
  utime := fun path times fs =>
    match fs path with
    | none => (-1, fs)
    | some _ =>
      (0, fun p =>
        if p = path then
          some ⟨min (times.getD ⟨now, now⟩).actime EXT4_MAX_SECONDS,
            min (times.getD ⟨now, now⟩).modtime EXT4_MAX_SECONDS⟩
        else fs p)

/-- The branches of the conditional compilation of `executable_path`: `_WIN32`,
`__APPLE__`, and the remaining branch, Linux. -/
inductive Platform
  | win32
  | apple
  | linux
  deriving DecidableEq, Repr

/-- The operating system as `executable_path` sees it. Character arrays are lists
of character codes, and a call that fills an array returns the array it leaves.
`MAX_PATH` and `PATH_MAX` are the constants of windows.h and limits.h. -/
structure Os where
  MAX_PATH : Nat
  PATH_MAX : Nat
  /-- The indeterminate contents of a local character array that is declared
  without an initialiser, by its size. -/
  uninitialised : Nat → List Nat
  /-- Models `GetModuleFileNameA(NULL, lpFilename, nSize)`: the array and the
  returned length, 0 on failure. -/
  GetModuleFileNameA : List Nat → Nat → List Nat × Nat
  /-- Models `_NSGetExecutablePath(buf, &bufsize)`: the array, the size written
  back, and the returned status, 0 on success. -/
  _NSGetExecutablePath : List Nat → Nat → List Nat × Nat × Int
  /-- Models `realpath(path, resolved)`: NULL, or the resolved array. -/
  realpath : List Nat → List Nat → Option (List Nat)
  /-- Models `readlink(path, buf, bufsiz)`: the array and the returned count, -1
  on failure. -/
  readlink : String → List Nat → Nat → List Nat × Int

/-- The hxcpp constructor `::String(const char *)` applied to a character array:
the characters before the first NUL, as a non-null string. An array that holds no
NUL is read past its end. -/
def String_of_chars (chars : List Nat) : Completion (Option (List Nat)) :=
  if 0 ∈ chars then .returned (some (chars.takeWhile (fun c => c != 0)))
  else .fault .unterminatedRead

/-- Embeds `linc::ceramic::executable_path` (linc_ceramic.cpp, lines 50-76), one
branch per platform. The result is the hxcpp string: `none` is `null()`. -/
def executable_path (platform : Platform) (os : Os) : Completion (Option (List Nat)) :=
  match platform with
  | .win32 =>
    let path := List.replicate os.MAX_PATH 0
    match os.GetModuleFileNameA path os.MAX_PATH with
    | (path, _) => String_of_chars path
  | .apple =>
    let path := os.uninitialised os.PATH_MAX
    let size := os.PATH_MAX
    match os._NSGetExecutablePath path size with
    | (path, _, status) =>
      if status = 0 then
        let real_path := os.uninitialised os.PATH_MAX
        match os.realpath path real_path with
        | some real_path => String_of_chars real_path
        | none => .returned none
      else .returned none
  | .linux =>
    let path := os.uninitialised os.PATH_MAX
    match os.readlink "/proc/self/exe" path os.PATH_MAX with
    | (path, count) =>
      if count ≠ -1 then
        if 0 ≤ count ∧ count < os.PATH_MAX then String_of_chars (path.set count.toNat 0)
        else .fault (.outOfBoundsWrite count.toNat os.PATH_MAX)
      else .returned none

/-- The POSIX contract of `readlink` for a link with contents `target` (`none`
when the link cannot be read): at most `bufsiz` characters of the contents are
placed at the start of the array, no NUL is appended, and the number of
characters placed is returned. -/
def posixReadlink (target : Option (List Nat)) (_path : String) (buf : List Nat)
    (bufsiz : Nat) : List Nat × Int :=
  match target with
  | none => (buf, -1)
  | some t => ((t.take bufsiz) ++ buf.drop (t.take bufsiz).length, ((t.take bufsiz).length : Int))

/-- An operating system in which every query for the executable path fails:
`GetModuleFileNameA` returns 0, `_NSGetExecutablePath` returns -1, `realpath`
returns NULL, `readlink` returns -1; no array is written. -/
def failingOs : Os where
  MAX_PATH := 260
  PATH_MAX := 4096
  uninitialised := fun n => List.replicate n 204
  GetModuleFileNameA := fun buf _ => (buf, 0)
  _NSGetExecutablePath := fun buf size => (buf, size, -1)
  realpath := fun _ _ => none
  readlink := posixReadlink none

/-- Linux `readlink` on `/proc/self/exe` for an executable at the path `exe`
(`none` when the link cannot be read). The kernel assembles the path together
with its terminator in a buffer of `PATH_MAX` bytes, so a path of `PATH_MAX`
characters or more fails with ENAMETOOLONG and the count returned is at most
`PATH_MAX - 1`; a shorter path is placed as `posixReadlink` places it. -/
def procReadlink (PATH_MAX : Nat) (exe : Option (List Nat)) (path : String) (buf : List Nat)
    (bufsiz : Nat) : List Nat × Int :=
  match exe with
  | none => (buf, -1)
  | some t => if PATH_MAX ≤ t.length then (buf, -1) else posixReadlink (some t) path buf bufsiz

/-- A Linux system whose executable has a path of `len` characters (all `a`). -/
def linuxOs (len : Nat) : Os where
  MAX_PATH := 260
  PATH_MAX := 4096
  uninitialised := fun n => List.replicate n 204
  GetModuleFileNameA := fun buf _ => (buf, 0)
  _NSGetExecutablePath := fun buf size => (buf, size, -1)
  realpath := fun _ _ => none
  readlink := procReadlink 4096 (some (List.replicate len 97))

/-- The Windows SDK macro `FAILED(hr)`, which is `((HRESULT)(hr)) < 0`. -/
def FAILED (hr : Int) : Bool := decide (hr < 0)

/-- The Windows SDK enumerator `PROCESS_PER_MONITOR_DPI_AWARE`. -/
def PROCESS_PER_MONITOR_DPI_AWARE : Nat := 2

/-- The Windows calls of `NativeWindows_init`: `SetProcessDpiAwareness` with its
HRESULT, and the message text of `_com_error(hr).ErrorMessage()`. -/
structure WinApi where
  SetProcessDpiAwareness : Nat → Int
  ErrorMessage : Int → String

/-- Embeds `backend::NativeWindows_init` (linc_NativeWindows.cpp, lines 16-26):
how the function is left, and the lines it writes to stderr. -/
def NativeWindows_init (api : WinApi) : Completion Unit × List String :=
  let hr := api.SetProcessDpiAwareness PROCESS_PER_MONITOR_DPI_AWARE
  if FAILED hr then
    let err := api.ErrorMessage hr
    (.returned (), ["SetProcessDpiAwareness: " ++ err ++ "\n"])
  else (.returned (), [])

/-! ## Theorems: JNI callback entry points -/

section EntryPoints

variable {σ : Type} (rt : Runtime σ) (address arg1 : jstring) (s : σ)

theorem runsOf_append (t u : List Effect) : runsOf (t ++ u) = runsOf t ++ runsOf u := by
  induction t with
  | nil => rfl
  | cons e t ih => cases e <;> simp [runsOf, ih]

theorem MapVoid_eq_StringVoid :
    Java_ceramic_support_bind_1Http_callN_1MapVoid rt address arg1 =
      Java_ceramic_support_bind_1Http_callN_1StringVoid rt address arg1 := rfl

/-- Path 1: token resolution raises. -/
theorem StringVoid_resolve_raises (e : String) (s2 : σ)
    (h1 : rt.JStringToHObject address (rt.SetTopOfStack (.addrOfLocal 99) true s) = (.error e, s2)) :
    invoke (Java_ceramic_support_bind_1Http_callN_1StringVoid rt address arg1) s =
      (.raised e, [.SetTopOfStack (.addrOfLocal 99) true, .JStringToHxcpp arg1,
        .JStringToHObject address], s2) := by
  simp [invoke, Java_ceramic_support_bind_1Http_callN_1StringVoid, bind, Exec.bind,
    hx_SetTopOfStack, bind_jni_JStringToHxcpp, bind_jni_JStringToHObject, Exec.call, h1]

/-- Path 2: unwrapping raises. -/
theorem StringVoid_unwrap_raises (hobj : Dynamic) (e : String) (s2 s3 : σ)
    (h1 : rt.JStringToHObject address (rt.SetTopOfStack (.addrOfLocal 99) true s) = (.ok hobj, s2))
    (h2 : rt.unwrap hobj s2 = (.error e, s3)) :
    invoke (Java_ceramic_support_bind_1Http_callN_1StringVoid rt address arg1) s =
      (.raised e, [.SetTopOfStack (.addrOfLocal 99) true, .JStringToHxcpp arg1,
        .JStringToHObject address, .unwrap hobj], s3) := by
  simp [invoke, Java_ceramic_support_bind_1Http_callN_1StringVoid, bind, Exec.bind,
    hx_SetTopOfStack, bind_jni_JStringToHxcpp, bind_jni_JStringToHObject, Exec.call, h1,
    HObject_obj_unwrap, h2]

/-- Path 3: the unwrapped reference is null. -/
theorem StringVoid_null (hobj : Dynamic) (s2 s3 : σ)
    (h1 : rt.JStringToHObject address (rt.SetTopOfStack (.addrOfLocal 99) true s) = (.ok hobj, s2))
    (h2 : rt.unwrap hobj s2 = (.ok none, s3)) :
    invoke (Java_ceramic_support_bind_1Http_callN_1StringVoid rt address arg1) s =
      (.fault .nullDereference, [.SetTopOfStack (.addrOfLocal 99) true, .JStringToHxcpp arg1,
        .JStringToHObject address, .unwrap hobj], s3) := by
  simp [invoke, Java_ceramic_support_bind_1Http_callN_1StringVoid, bind, Exec.bind,
    hx_SetTopOfStack, bind_jni_JStringToHxcpp, bind_jni_JStringToHObject, Exec.call, h1,
    HObject_obj_unwrap, h2, Dynamic_run]

/-- Path 4: the callback raises. -/
theorem StringVoid_run_raises (hobj : Dynamic) (f : ObjRef) (e : String) (s2 s3 s4 : σ)
    (h1 : rt.JStringToHObject address (rt.SetTopOfStack (.addrOfLocal 99) true s) = (.ok hobj, s2))
    (h2 : rt.unwrap hobj s2 = (.ok (some f), s3))
    (h3 : rt.__run f (rt.JStringToHxcpp arg1) s3 = (.error e, s4)) :
    invoke (Java_ceramic_support_bind_1Http_callN_1StringVoid rt address arg1) s =
      (.raised e, [.SetTopOfStack (.addrOfLocal 99) true, .JStringToHxcpp arg1,
        .JStringToHObject address, .unwrap hobj, .run f (rt.JStringToHxcpp arg1)], s4) := by
  simp [invoke, Java_ceramic_support_bind_1Http_callN_1StringVoid, bind, Exec.bind,
    hx_SetTopOfStack, bind_jni_JStringToHxcpp, bind_jni_JStringToHObject, Exec.call, h1,
    HObject_obj_unwrap, h2, Dynamic_run, h3]

/-- Path 5: every call returns normally. -/
theorem StringVoid_returns (hobj : Dynamic) (f : ObjRef) (s2 s3 s4 : σ)
    (h1 : rt.JStringToHObject address (rt.SetTopOfStack (.addrOfLocal 99) true s) = (.ok hobj, s2))
    (h2 : rt.unwrap hobj s2 = (.ok (some f), s3))
    (h3 : rt.__run f (rt.JStringToHxcpp arg1) s3 = (.ok (), s4)) :
    invoke (Java_ceramic_support_bind_1Http_callN_1StringVoid rt address arg1) s =
      (.returned (), [.SetTopOfStack (.addrOfLocal 99) true, .JStringToHxcpp arg1,
        .JStringToHObject address, .unwrap hobj, .run f (rt.JStringToHxcpp arg1),
        .SetTopOfStack .null true], rt.SetTopOfStack .null true s4) := by
  simp [invoke, Java_ceramic_support_bind_1Http_callN_1StringVoid, bind, Exec.bind,
    hx_SetTopOfStack, bind_jni_JStringToHxcpp, bind_jni_JStringToHObject, Exec.call, h1,
    HObject_obj_unwrap, h2, Dynamic_run, h3]

/-- C1. For every runtime, token and argument: when the token resolves to a
callback and that callback returns normally, an invocation of either JNI
callback entry point returns normally and its calls are, in this order: register
the thread (SetTopOfStack with the address of a local, which is not null),
marshal the argument, resolve the token, unwrap the handle object, run the
callback with the marshaled argument, unregister the thread (SetTopOfStack with
null). The register call is the first call, and the callback runs exactly once,
between the register and the unregister call. -/
theorem callback_trace_on_normal_return
    (entry : Runtime σ → jstring → jstring → Exec σ Unit)
    (hentry : entry = Java_ceramic_support_bind_1Http_callN_1StringVoid ∨
      entry = Java_ceramic_support_bind_1Http_callN_1MapVoid)
    (hobj : Dynamic) (f : ObjRef) (s2 s3 s4 : σ)
    (h1 : rt.JStringToHObject address (rt.SetTopOfStack (.addrOfLocal 99) true s) = (.ok hobj, s2))
    (h2 : rt.unwrap hobj s2 = (.ok (some f), s3))
    (h3 : rt.__run f (rt.JStringToHxcpp arg1) s3 = (.ok (), s4)) :
    invoke (entry rt address arg1) s =
      (.returned (),
        [.SetTopOfStack (.addrOfLocal 99) true, .JStringToHxcpp arg1, .JStringToHObject address,
          .unwrap hobj, .run f (rt.JStringToHxcpp arg1), .SetTopOfStack .null true],
        rt.SetTopOfStack .null true s4) ∧
    (invoke (entry rt address arg1) s).2.1.head? = some (.SetTopOfStack (.addrOfLocal 99) true) ∧
    runsOf (invoke (entry rt address arg1) s).2.1 = [(f, rt.JStringToHxcpp arg1)] ∧
    StackPtr.addrOfLocal 99 ≠ StackPtr.null := by
  have hE : invoke (entry rt address arg1) s =
      invoke (Java_ceramic_support_bind_1Http_callN_1StringVoid rt address arg1) s := by
    rcases hentry with h | h <;> (subst h; rfl)
  rw [hE, StringVoid_returns rt address arg1 s hobj f s2 s3 s4 h1 h2 h3]
  exact ⟨rfl, rfl, rfl, by decide⟩

/-- Witness for C1: the text entry point with a token that the table holds. -/
theorem callback_trace_on_normal_return_witness :
    ((tableRuntime [("H", 7)] []).JStringToHObject (some "H")
        ((tableRuntime [("H", 7)] []).SetTopOfStack (.addrOfLocal 99) true 0) = (.ok (some 7), 0) ∧
      (tableRuntime [("H", 7)] []).unwrap (some 7) 0 = (.ok (some 7), 0) ∧
      (tableRuntime [("H", 7)] []).__run 7
        ((tableRuntime [("H", 7)] []).JStringToHxcpp (some "hello")) 0 = (.ok (), 1)) ∧
    (invoke (Java_ceramic_support_bind_1Http_callN_1StringVoid (tableRuntime [("H", 7)] [])
        (some "H") (some "hello")) 0 =
      (.returned (),
        [.SetTopOfStack (.addrOfLocal 99) true, .JStringToHxcpp (some "hello"),
          .JStringToHObject (some "H"), .unwrap (some 7),
          .run 7 ((tableRuntime [("H", 7)] []).JStringToHxcpp (some "hello")),
          .SetTopOfStack .null true],
        (tableRuntime [("H", 7)] []).SetTopOfStack .null true 1) ∧
    (invoke (Java_ceramic_support_bind_1Http_callN_1StringVoid (tableRuntime [("H", 7)] [])
        (some "H") (some "hello")) 0).2.1.head? = some (.SetTopOfStack (.addrOfLocal 99) true) ∧
    runsOf (invoke (Java_ceramic_support_bind_1Http_callN_1StringVoid
        (tableRuntime [("H", 7)] []) (some "H") (some "hello")) 0).2.1 =
      [(7, (tableRuntime [("H", 7)] []).JStringToHxcpp (some "hello"))] ∧
    StackPtr.addrOfLocal 99 ≠ StackPtr.null) :=
  ⟨⟨rfl, rfl, rfl⟩,
    callback_trace_on_normal_return (tableRuntime [("H", 7)] []) (some "H") (some "hello") 0
      Java_ceramic_support_bind_1Http_callN_1StringVoid (Or.inl rfl) (some 7) 7 0 0 1 rfl rfl rfl⟩

/-- Every invocation follows one of the five paths; the facts shared by all of
them: the first call is the register call, there is exactly one register call,
the callback runs at most once and only with the marshaled argument, and an
unregister call is made, as the last call, exactly on a normal return. -/
theorem StringVoid_shape :
    (invoke (Java_ceramic_support_bind_1Http_callN_1StringVoid rt address arg1) s).2.1.head? =
        some (.SetTopOfStack (.addrOfLocal 99) true) ∧
    registersOf (invoke (Java_ceramic_support_bind_1Http_callN_1StringVoid rt address arg1) s).2.1
        = 1 ∧
    unregistersOf
        (invoke (Java_ceramic_support_bind_1Http_callN_1StringVoid rt address arg1) s).2.1 =
      (if (invoke (Java_ceramic_support_bind_1Http_callN_1StringVoid rt address arg1) s).1 =
        .returned () then 1 else 0) ∧
    ((invoke (Java_ceramic_support_bind_1Http_callN_1StringVoid rt address arg1) s).1 =
        .returned () →
      (invoke (Java_ceramic_support_bind_1Http_callN_1StringVoid rt address arg1) s).2.1.getLast? =
        some (.SetTopOfStack .null true)) ∧
    (∀ f a,
      (f, a) ∈ runsOf
        (invoke (Java_ceramic_support_bind_1Http_callN_1StringVoid rt address arg1) s).2.1 →
      a = rt.JStringToHxcpp arg1) ∧
    (runsOf (invoke (Java_ceramic_support_bind_1Http_callN_1StringVoid rt address arg1) s).2.1).length
      ≤ 1 := by
  rcases h1 : rt.JStringToHObject address (rt.SetTopOfStack (.addrOfLocal 99) true s)
    with ⟨e | hobj, s2⟩
  · simp [StringVoid_resolve_raises rt address arg1 s e s2 h1, registersOf, unregistersOf, runsOf]
  rcases h2 : rt.unwrap hobj s2 with ⟨e | _ | f, s3⟩
  · simp [StringVoid_unwrap_raises rt address arg1 s hobj e s2 s3 h1 h2, registersOf,
      unregistersOf, runsOf]
  · simp [StringVoid_null rt address arg1 s hobj s2 s3 h1 h2, registersOf, unregistersOf, runsOf]
  rcases h3 : rt.__run f (rt.JStringToHxcpp arg1) s3 with ⟨e | _, s4⟩
  · simp [StringVoid_run_raises rt address arg1 s hobj f e s2 s3 s4 h1 h2 h3, registersOf,
      unregistersOf, runsOf]
  · simp [StringVoid_returns rt address arg1 s hobj f s2 s3 s4 h1 h2 h3, registersOf,
      unregistersOf, runsOf]

/-- Counterexample for C2 as stated: with a handle table that maps token H to
callback 7, two invocations of the text entry point with H and payload hello
both return normally, and the callback runs twice. -/
theorem second_invocation_fires_again :
    (invokeEach (Java_ceramic_support_bind_1Http_callN_1StringVoid (tableRuntime [("H", 7)] []) (some "H"))
        [some "hello", some "hello"] 0).1 = [.returned (), .returned ()] ∧
    runsOf (invokeEach
        (Java_ceramic_support_bind_1Http_callN_1StringVoid (tableRuntime [("H", 7)] []) (some "H"))
        [some "hello", some "hello"] 0).2.1 = [(7, some "hello"), (7, some "hello")] := by
  decide

/-- C2, amended. When the runtime resolves token H to a callback object that
returns normally, every invocation of the text entry point with H returns
normally and runs that callback exactly once with the marshaled payload of that
invocation. The entry point does not invalidate H: n successive invocations run
the callback n times. -/
theorem each_invocation_fires_once (hobj : Dynamic) (f : ObjRef)
    (h1 : ∀ w, (rt.JStringToHObject address w).1 = .ok hobj)
    (h2 : ∀ w, (rt.unwrap hobj w).1 = .ok (some f))
    (h3 : ∀ a w, (rt.__run f a w).1 = .ok ())
    (payloads : List jstring) :
    (invokeEach (Java_ceramic_support_bind_1Http_callN_1StringVoid rt address) payloads s).1 =
        payloads.map (fun _ => .returned ()) ∧
    runsOf (invokeEach (Java_ceramic_support_bind_1Http_callN_1StringVoid rt address)
        payloads s).2.1 = payloads.map (fun p => (f, rt.JStringToHxcpp p)) := by
  induction payloads generalizing s with
  | nil => exact ⟨rfl, rfl⟩
  | cons p ps ih =>
    rcases e1 : rt.JStringToHObject address (rt.SetTopOfStack (.addrOfLocal 99) true s)
      with ⟨r1, s2⟩
    have e1a := h1 (rt.SetTopOfStack (.addrOfLocal 99) true s)
    rw [e1] at e1a
    simp only at e1a
    subst e1a
    rcases e2 : rt.unwrap hobj s2 with ⟨r2, s3⟩
    have e2a := h2 s2
    rw [e2] at e2a
    simp only at e2a
    subst e2a
    rcases e3 : rt.__run f (rt.JStringToHxcpp p) s3 with ⟨r3, s4⟩
    have e3a := h3 (rt.JStringToHxcpp p) s3
    rw [e3] at e3a
    simp only at e3a
    subst e3a
    have hinv := StringVoid_returns rt address p s hobj f s2 s3 s4 e1 e2 e3
    obtain ⟨ihc, ihr⟩ := ih (rt.SetTopOfStack .null true s4)
    constructor
    · simp only [invokeEach, hinv, List.map_cons]
      rw [ihc]
    · simp only [invokeEach, hinv, List.map_cons, runsOf_append]
      rw [ihr]
      rfl

/-- Witness for C2, amended: three invocations with a token the table holds. -/
theorem each_invocation_fires_once_witness :
    (invokeEach (Java_ceramic_support_bind_1Http_callN_1StringVoid (tableRuntime [("H", 7)] [])
        (some "H")) [some "a", some "b", none] 0).1 =
      [some "a", some "b", none].map (fun _ => .returned ()) ∧
    runsOf (invokeEach (Java_ceramic_support_bind_1Http_callN_1StringVoid
        (tableRuntime [("H", 7)] []) (some "H")) [some "a", some "b", none] 0).2.1 =
      [some "a", some "b", none].map (fun p => (7, (tableRuntime [("H", 7)] []).JStringToHxcpp p)) :=
  each_invocation_fires_once (tableRuntime [("H", 7)] []) (some "H") 0 (some 7) 7
    (fun _ => rfl) (fun _ => rfl) (fun _ _ => rfl) [some "a", some "b", none]

/-- Counterexample for C3 as stated: the callback of token H raises; the entry
point is left with the register call made and no unregister call. -/
theorem registration_unbalanced_when_callback_raises :
    invoke (Java_ceramic_support_bind_1Http_callN_1StringVoid (tableRuntime [("H", 7)] [7])
        (some "H") (some "hello")) 0 =
      (.raised "callback failed",
        [.SetTopOfStack (.addrOfLocal 99) true, .JStringToHxcpp (some "hello"),
          .JStringToHObject (some "H"), .unwrap (some 7), .run 7 (some "hello")], 0) ∧
    registersOf (invoke (Java_ceramic_support_bind_1Http_callN_1StringVoid
        (tableRuntime [("H", 7)] [7]) (some "H") (some "hello")) 0).2.1 = 1 ∧
    unregistersOf (invoke (Java_ceramic_support_bind_1Http_callN_1StringVoid
        (tableRuntime [("H", 7)] [7]) (some "H") (some "hello")) 0).2.1 = 0 := by
  decide

/-- C3, amended. Every invocation of either JNI callback entry point makes
exactly one register call, as its first call. It makes exactly one unregister
call, as its last call, when it returns normally, and no unregister call when
token resolution, unwrapping or the callback raises or the callback reference is
null: the entry points have no cleanup path. -/
theorem registration_balanced_only_on_normal_return
    (entry : Runtime σ → jstring → jstring → Exec σ Unit)
    (hentry : entry = Java_ceramic_support_bind_1Http_callN_1StringVoid ∨
      entry = Java_ceramic_support_bind_1Http_callN_1MapVoid) :
    (invoke (entry rt address arg1) s).2.1.head? = some (.SetTopOfStack (.addrOfLocal 99) true) ∧
    registersOf (invoke (entry rt address arg1) s).2.1 = 1 ∧
    unregistersOf (invoke (entry rt address arg1) s).2.1 =
      (if (invoke (entry rt address arg1) s).1 = .returned () then 1 else 0) ∧
    ((invoke (entry rt address arg1) s).1 = .returned () →
      (invoke (entry rt address arg1) s).2.1.getLast? = some (.SetTopOfStack .null true)) := by
  have hE : invoke (entry rt address arg1) s =
      invoke (Java_ceramic_support_bind_1Http_callN_1StringVoid rt address arg1) s := by
    rcases hentry with h | h <;> (subst h; rfl)
  rw [hE]
  obtain ⟨a, b, c, d, _, _⟩ := StringVoid_shape rt address arg1 s
  exact ⟨a, b, c, d⟩

/-- Witness for C3, amended: the structured-data entry point with a raising
callback. -/
theorem registration_balanced_only_on_normal_return_witness :
    (Java_ceramic_support_bind_1Http_callN_1MapVoid =
        (Java_ceramic_support_bind_1Http_callN_1StringVoid :
          Runtime Nat → jstring → jstring → Exec Nat Unit) ∨
      Java_ceramic_support_bind_1Http_callN_1MapVoid =
        (Java_ceramic_support_bind_1Http_callN_1MapVoid :
          Runtime Nat → jstring → jstring → Exec Nat Unit)) ∧
    (invoke (Java_ceramic_support_bind_1Http_callN_1MapVoid (tableRuntime [("H", 7)] [7])
        (some "H") (some "x")) 0).2.1.head? = some (.SetTopOfStack (.addrOfLocal 99) true) ∧
    registersOf (invoke (Java_ceramic_support_bind_1Http_callN_1MapVoid
        (tableRuntime [("H", 7)] [7]) (some "H") (some "x")) 0).2.1 = 1 ∧
    unregistersOf (invoke (Java_ceramic_support_bind_1Http_callN_1MapVoid
        (tableRuntime [("H", 7)] [7]) (some "H") (some "x")) 0).2.1 =
      (if (invoke (Java_ceramic_support_bind_1Http_callN_1MapVoid
        (tableRuntime [("H", 7)] [7]) (some "H") (some "x")) 0).1 = .returned () then 1 else 0) ∧
    ((invoke (Java_ceramic_support_bind_1Http_callN_1MapVoid (tableRuntime [("H", 7)] [7])
        (some "H") (some "x")) 0).1 = .returned () →
      (invoke (Java_ceramic_support_bind_1Http_callN_1MapVoid (tableRuntime [("H", 7)] [7])
        (some "H") (some "x")) 0).2.1.getLast? = some (.SetTopOfStack .null true)) :=
  ⟨Or.inr rfl, registration_balanced_only_on_normal_return (tableRuntime [("H", 7)] [7])
    (some "H") (some "x") 0 Java_ceramic_support_bind_1Http_callN_1MapVoid (Or.inr rfl)⟩

/-- Counterexample for C4 as stated: token X was never issued and resolves to
null; the text entry point calls `__run` through the null reference and is left
by a null dereference, not by an InvalidHandle failure. -/
theorem unissued_token_is_dereferenced :
    invoke (Java_ceramic_support_bind_1Http_callN_1StringVoid (tableRuntime [("H", 7)] [])
        (some "X") (some "hello")) 0 =
      (.fault .nullDereference,
        [.SetTopOfStack (.addrOfLocal 99) true, .JStringToHxcpp (some "hello"),
          .JStringToHObject (some "X"), .unwrap none], 0) := by
  decide

/-- C4, amended. For every address token whose unwrapped callback reference is
null, either JNI callback entry point runs no callback, but it makes no validity
check: after the register, marshal, resolve and unwrap calls it calls `__run`
through the null reference, so the invocation ends in a null dereference with no
unregister call, and no InvalidHandle failure is produced. -/
theorem null_callback_is_dereferenced
    (entry : Runtime σ → jstring → jstring → Exec σ Unit)
    (hentry : entry = Java_ceramic_support_bind_1Http_callN_1StringVoid ∨
      entry = Java_ceramic_support_bind_1Http_callN_1MapVoid)
    (hobj : Dynamic) (s2 s3 : σ)
    (h1 : rt.JStringToHObject address (rt.SetTopOfStack (.addrOfLocal 99) true s) = (.ok hobj, s2))
    (h2 : rt.unwrap hobj s2 = (.ok none, s3)) :
    invoke (entry rt address arg1) s =
      (.fault .nullDereference, [.SetTopOfStack (.addrOfLocal 99) true, .JStringToHxcpp arg1,
        .JStringToHObject address, .unwrap hobj], s3) ∧
    runsOf (invoke (entry rt address arg1) s).2.1 = [] ∧
    unregistersOf (invoke (entry rt address arg1) s).2.1 = 0 := by
  have hE : invoke (entry rt address arg1) s =
      invoke (Java_ceramic_support_bind_1Http_callN_1StringVoid rt address arg1) s := by
    rcases hentry with h | h <;> (subst h; rfl)
  rw [hE, StringVoid_null rt address arg1 s hobj s2 s3 h1 h2]
  exact ⟨rfl, rfl, rfl⟩

/-- Witness for C4, amended: the NULL token on the structured-data entry point. -/
theorem null_callback_is_dereferenced_witness :
    ((tableRuntime [("H", 7)] []).JStringToHObject none
        ((tableRuntime [("H", 7)] []).SetTopOfStack (.addrOfLocal 99) true 3) = (.ok none, 3) ∧
      (tableRuntime [("H", 7)] []).unwrap none 3 = (.ok none, 3)) ∧
    (invoke (Java_ceramic_support_bind_1Http_callN_1MapVoid (tableRuntime [("H", 7)] [])
        none (some "x")) 3 =
      (.fault .nullDereference, [.SetTopOfStack (.addrOfLocal 99) true, .JStringToHxcpp (some "x"),
        .JStringToHObject none, .unwrap none], 3) ∧
    runsOf (invoke (Java_ceramic_support_bind_1Http_callN_1MapVoid (tableRuntime [("H", 7)] [])
        none (some "x")) 3).2.1 = [] ∧
    unregistersOf (invoke (Java_ceramic_support_bind_1Http_callN_1MapVoid
        (tableRuntime [("H", 7)] []) none (some "x")) 3).2.1 = 0) :=
  ⟨⟨rfl, rfl⟩, null_callback_is_dereferenced (tableRuntime [("H", 7)] []) none (some "x") 3
    Java_ceramic_support_bind_1Http_callN_1MapVoid (Or.inr rfl) none 3 3 rfl rfl⟩

/-- C10. The two JNI callback entry points are the same program: for every
runtime, token and argument they are equal as state transformers, so every
invocation completes the same way with the same calls and the same final state;
and whenever the structured-data entry point runs a callback, its single argument
is the marshaled text of `arg1`, unparsed. -/
theorem MapVoid_behaves_as_StringVoid :
    Java_ceramic_support_bind_1Http_callN_1MapVoid rt address arg1 =
      Java_ceramic_support_bind_1Http_callN_1StringVoid rt address arg1 ∧
    invoke (Java_ceramic_support_bind_1Http_callN_1MapVoid rt address arg1) s =
      invoke (Java_ceramic_support_bind_1Http_callN_1StringVoid rt address arg1) s ∧
    ∀ f a,
      (f, a) ∈ runsOf (invoke (Java_ceramic_support_bind_1Http_callN_1MapVoid rt address arg1) s).2.1 →
      a = rt.JStringToHxcpp arg1 := by
  refine ⟨MapVoid_eq_StringVoid rt address arg1, by rw [MapVoid_eq_StringVoid], ?_⟩
  rw [MapVoid_eq_StringVoid]
  exact (StringVoid_shape rt address arg1 s).2.2.2.2.1

end EntryPoints

/-! ## Theorems: file times -/

theorem roundNearestEven_1000 (n : Nat) :
    1000 * roundNearestEven n 1000 ≤ n + 500 ∧ n ≤ 1000 * roundNearestEven n 1000 + 500 := by
  have h := Nat.div_add_mod n 1000
  have hlt := Nat.mod_lt n (show 0 < 1000 by norm_num)
  unfold roundNearestEven
  split_ifs <;> omega

theorem log2Fuel_le (fuel : Nat) : ∀ n k : Nat, n < 2 ^ (k + 1) → log2Fuel fuel n ≤ k := by
  induction fuel with
  | zero => intro n k _; simp [log2Fuel]
  | succ fuel ih =>
    intro n k hn
    unfold log2Fuel
    split_ifs with h2
    · cases k with
      | zero => omega
      | succ k =>
        have : n / 2 < 2 ^ (k + 1) := by
          rw [Nat.div_lt_iff_lt_mul (by norm_num)]
          rw [pow_succ] at hn
          exact hn
        have := ih (n / 2) k this
        omega
    · omega

theorem log2Fuel_eq_log2 (fuel : Nat) : ∀ n : Nat, n ≤ fuel → log2Fuel fuel n = Nat.log2 n := by
  induction fuel with
  | zero =>
    intro n hn
    have : n = 0 := by omega
    subst this
    simp [log2Fuel, Nat.log2]
  | succ fuel ih =>
    intro n hn
    unfold log2Fuel
    rw [Nat.log2]
    split_ifs with h2
    · rw [ih (n / 2) (by omega)]
    · rfl

/-- The structural logarithm is the library one. -/
theorem ilog2_eq_log2 (n : Nat) : ilog2 n = Nat.log2 n := log2Fuel_eq_log2 n n (le_refl n)

theorem ilog2_1000 : ilog2 1000 = 9 := by decide

/-- The rounded quotient is within half a unit of the exact quotient. -/
theorem roundNearestEven_error (n d : Nat) (hd : 0 < d) :
    2 * (roundNearestEven n d * d) ≤ 2 * n + d ∧ 2 * n ≤ 2 * (roundNearestEven n d * d) + d := by
  have h := Nat.div_add_mod n d
  have hlt := Nat.mod_lt n hd
  have hc : d * (n / d) = n / d * d := Nat.mul_comm _ _
  unfold roundNearestEven
  split_ifs <;> (try simp only [Nat.add_mul, Nat.one_mul]) <;> omega

/-- Rounding is monotone at whole bounds: a quotient between `lo` and `hi`
rounds to a value between `lo` and `hi`. -/
theorem roundNearestEven_between (n d lo hi : Nat) (hd : 0 < d) (h1 : lo * d ≤ n)
    (h2 : n < hi * d) : lo ≤ roundNearestEven n d ∧ roundNearestEven n d ≤ hi := by
  have hq1 : lo ≤ n / d := (Nat.le_div_iff_mul_le hd).2 h1
  have hq2 : n / d < hi := (Nat.div_lt_iff_lt_mul hd).2 h2
  unfold roundNearestEven
  split_ifs <;> omega

/-- The leading bit: `2 ^ ilog2 n ≤ n < 2 ^ (ilog2 n + 1)` for positive `n`. -/
theorem ilog2_spec (n : Nat) (hn : 0 < n) : 2 ^ ilog2 n ≤ n ∧ n < 2 ^ (ilog2 n + 1) := by
  rw [ilog2_eq_log2]
  exact ⟨Nat.log2_self_le (by omega), Nat.lt_log2_self⟩

/-- The exponent that `double_div` chooses puts the exact quotient `x / d` in
the binade of 53-bit significands: `2 ^ 52 ≤ x / (d * 2 ^ e) < 2 ^ 53`. Stated
without fractions, for a non-negative exponent `e` and for a negative exponent
`-f`. -/
theorem double_div_binade (x d : Nat) (hx : 0 < x) (hd : 0 < d) :
    (∀ e : Nat, (double_div x d).exp = (e : Int) →
      2 ^ 52 * (d * 2 ^ e) ≤ x ∧ x < 2 ^ 53 * (d * 2 ^ e)) ∧
    (∀ f : Nat, (double_div x d).exp = -(f : Int) →
      2 ^ 52 * d ≤ x * 2 ^ f ∧ x * 2 ^ f < 2 ^ 53 * d) := by
  obtain ⟨ha1, ha2⟩ := ilog2_spec x hx
  obtain ⟨hb1, hb2⟩ := ilog2_spec d hd
  have hx0 : x ≠ 0 := by omega
  have hexp : (double_div x d).exp =
      (if d * 2 ^ ilog2 x ≤ x * 2 ^ ilog2 d then ((ilog2 x : Nat) : Int) - (ilog2 d : Nat)
        else ((ilog2 x : Nat) : Int) - (ilog2 d : Nat) - 1) - 52 := by
    simp only [double_div, if_neg hx0]
    split_ifs <;> rfl
  rw [hexp]
  have hB : 0 < 2 ^ ilog2 d := Nat.pow_pos (by norm_num)
  constructor
  · intro e he
    split_ifs at he with hc
    · have hae : ilog2 x = ilog2 d + (52 + e) := by omega
      rw [hae, pow_add] at hc ha2 
      rw [pow_succ, pow_add] at ha2
      have h1 : 2 ^ ilog2 d * (d * 2 ^ (52 + e)) ≤ 2 ^ ilog2 d * x := by
        calc 2 ^ ilog2 d * (d * 2 ^ (52 + e)) = d * (2 ^ ilog2 d * 2 ^ (52 + e)) := by ring
          _ ≤ x * 2 ^ ilog2 d := hc
          _ = 2 ^ ilog2 d * x := by ring
      have h2 := Nat.le_of_mul_le_mul_left h1 hB
      rw [pow_add] at h2 ha2
      constructor
      · calc 2 ^ 52 * (d * 2 ^ e) = d * (2 ^ 52 * 2 ^ e) := by ring
          _ ≤ x := h2
      · calc x < 2 ^ ilog2 d * (2 ^ 52 * 2 ^ e) * 2 := ha2
          _ ≤ d * (2 ^ 52 * 2 ^ e) * 2 := by gcongr
          _ = 2 ^ 53 * (d * 2 ^ e) := by ring
    · have hae : ilog2 x = ilog2 d + (53 + e) := by omega
      rw [hae, pow_add] at hc ha1
      have hc2 : x * 2 ^ ilog2 d < d * (2 ^ ilog2 d * 2 ^ (53 + e)) := by omega
      have h1 : 2 ^ ilog2 d * x < 2 ^ ilog2 d * (d * 2 ^ (53 + e)) := by
        calc 2 ^ ilog2 d * x = x * 2 ^ ilog2 d := by ring
          _ < d * (2 ^ ilog2 d * 2 ^ (53 + e)) := hc2
          _ = 2 ^ ilog2 d * (d * 2 ^ (53 + e)) := by ring
      have h2 := Nat.lt_of_mul_lt_mul_left h1
      rw [pow_succ] at hb2
      constructor
      · calc 2 ^ 52 * (d * 2 ^ e) ≤ 2 ^ 52 * ((2 ^ ilog2 d * 2) * 2 ^ e) := by gcongr
          _ = 2 ^ ilog2 d * 2 ^ (53 + e) := by ring
          _ ≤ x := ha1
      · calc x < d * 2 ^ (53 + e) := h2
          _ = 2 ^ 53 * (d * 2 ^ e) := by ring
  · intro f he
    split_ifs at he with hc
    · have hae : ilog2 x + f = ilog2 d + 52 := by omega
      have h1 : 2 ^ ilog2 d * (2 ^ 52 * d) ≤ 2 ^ ilog2 d * (x * 2 ^ f) := by
        calc 2 ^ ilog2 d * (2 ^ 52 * d) = d * 2 ^ (ilog2 d + 52) := by ring
          _ = d * 2 ^ (ilog2 x + f) := by rw [hae]
          _ = d * 2 ^ ilog2 x * 2 ^ f := by ring
          _ ≤ x * 2 ^ ilog2 d * 2 ^ f := by gcongr
          _ = 2 ^ ilog2 d * (x * 2 ^ f) := by ring
      constructor
      · exact Nat.le_of_mul_le_mul_left h1 hB
      · calc x * 2 ^ f < 2 ^ (ilog2 x + 1) * 2 ^ f := by gcongr
          _ = 2 ^ (ilog2 x + f) * 2 := by ring
          _ = 2 ^ (ilog2 d + 52) * 2 := by rw [hae]
          _ = 2 ^ 53 * 2 ^ ilog2 d := by ring
          _ ≤ 2 ^ 53 * d := by gcongr
    · have hae : ilog2 x + f = ilog2 d + 53 := by omega
      have hc2 : x * 2 ^ ilog2 d < d * 2 ^ ilog2 x := by omega
      have h1 : 2 ^ ilog2 d * (x * 2 ^ f) < 2 ^ ilog2 d * (2 ^ 53 * d) := by
        calc 2 ^ ilog2 d * (x * 2 ^ f) = x * 2 ^ ilog2 d * 2 ^ f := by ring
          _ < d * 2 ^ ilog2 x * 2 ^ f := by gcongr
          _ = d * 2 ^ (ilog2 x + f) := by ring
          _ = d * 2 ^ (ilog2 d + 53) := by rw [hae]
          _ = 2 ^ ilog2 d * (2 ^ 53 * d) := by ring
      rw [pow_succ] at hb2
      constructor
      · calc 2 ^ 52 * d ≤ 2 ^ 52 * (2 ^ ilog2 d * 2) := by gcongr
          _ = 2 ^ (ilog2 d + 53) := by ring
          _ = 2 ^ (ilog2 x + f) := by rw [hae]
          _ = 2 ^ ilog2 x * 2 ^ f := by ring
          _ ≤ x * 2 ^ f := by gcongr
      · exact Nat.lt_of_mul_lt_mul_left h1

/-- The significand that `double_div` returns is the rounded quotient at the
chosen exponent. -/
theorem double_div_mant (x d : Nat) (hx : 0 < x) :
    (∀ e : Nat, (double_div x d).exp = (e : Int) →
      (double_div x d).mant = roundNearestEven x (d * 2 ^ e)) ∧
    (∀ f : Nat, (double_div x d).exp = -(f : Int) →
      (double_div x d).mant = roundNearestEven (x * 2 ^ f) d) := by
  have hx0 : x ≠ 0 := by omega
  simp only [double_div, if_neg hx0]
  generalize (if d * 2 ^ ilog2 x ≤ x * 2 ^ ilog2 d then ((ilog2 x : Nat) : Int) - (ilog2 d : Nat)
    else ((ilog2 x : Nat) : Int) - (ilog2 d : Nat) - 1) - 52 = e0
  constructor
  · intro e he
    split_ifs at he ⊢ with h0
    · simp only at he ⊢
      subst he
      simp
    · simp only at he
      omega
  · intro f he
    split_ifs at he ⊢ with h0
    · simp only at he ⊢
      have hf : f = 0 := by omega
      subst hf
      subst he
      simp
    · simp only at he ⊢
      subst he
      simp

/-- The division model is IEEE-754 round-to-nearest division: for positive whole
numbers the result `mant * 2 ^ exp` has a significand of 53 bits (or is the
next power of two), and it is within half a unit in the last place of the exact
quotient `x / d`. Both facts are stated without fractions, for a non-negative
exponent `e` and for a negative exponent `-f`. -/
theorem double_div_correctly_rounded (x d : Nat) (hx : 0 < x) (hd : 0 < d) :
    2 ^ 52 ≤ (double_div x d).mant ∧ (double_div x d).mant ≤ 2 ^ 53 ∧
    (∀ e : Nat, (double_div x d).exp = (e : Int) →
      2 * ((double_div x d).mant * (d * 2 ^ e)) ≤ 2 * x + d * 2 ^ e ∧
      2 * x ≤ 2 * ((double_div x d).mant * (d * 2 ^ e)) + d * 2 ^ e) ∧
    (∀ f : Nat, (double_div x d).exp = -(f : Int) →
      2 * ((double_div x d).mant * d) ≤ 2 * (x * 2 ^ f) + d ∧
      2 * (x * 2 ^ f) ≤ 2 * ((double_div x d).mant * d) + d) := by
  obtain ⟨hm1, hm2⟩ := double_div_mant x d hx
  obtain ⟨hb1, hb2⟩ := double_div_binade x d hx hd
  have hrange : 2 ^ 52 ≤ (double_div x d).mant ∧ (double_div x d).mant ≤ 2 ^ 53 := by
    rcases Int.le_total 0 (double_div x d).exp with h | h
    · obtain ⟨e, he⟩ := Int.eq_ofNat_of_zero_le h
      have hD : 0 < d * 2 ^ e := Nat.mul_pos hd (Nat.pow_pos (by norm_num))
      rw [hm1 e he]
      exact roundNearestEven_between x (d * 2 ^ e) (2 ^ 52) (2 ^ 53) hD (hb1 e he).1 (hb1 e he).2
    · obtain ⟨f, hf⟩ := Int.eq_ofNat_of_zero_le (show 0 ≤ -(double_div x d).exp by omega)
      have he : (double_div x d).exp = -(f : Int) := by omega
      rw [hm2 f he]
      exact roundNearestEven_between (x * 2 ^ f) d (2 ^ 52) (2 ^ 53) hd (hb2 f he).1 (hb2 f he).2
  refine ⟨hrange.1, hrange.2, ?_, ?_⟩
  · intro e he
    have hD : 0 < d * 2 ^ e := Nat.mul_pos hd (Nat.pow_pos (by norm_num))
    rw [hm1 e he]
    exact roundNearestEven_error x (d * 2 ^ e) hD
  · intro f he
    rw [hm2 f he]
    exact roundNearestEven_error (x * 2 ^ f) d hd

/-- A binary64 whole number of at least `52 + j` bits below its leading bit is a
multiple of `2 ^ j`. -/
theorem isBinary64_mod (T j : Nat) (hbin : isBinary64 T = true) (hge : 2 ^ (52 + j) ≤ T) :
    T % 2 ^ j = 0 := by
  have hpos : 0 < T := lt_of_lt_of_le (Nat.pow_pos (by norm_num)) hge
  obtain ⟨_, hlt⟩ := ilog2_spec T hpos
  have hj : j ≤ ilog2 T - 52 := by
    by_contra hcon
    have h1 : ilog2 T + 1 ≤ 52 + j := by omega
    have h2 : 2 ^ (ilog2 T + 1) ≤ 2 ^ (52 + j) := Nat.pow_le_pow_right (by norm_num) h1
    omega
  simp only [isBinary64, Bool.and_eq_true, decide_eq_true_eq, beq_iff_eq] at hbin
  have hd : 2 ^ j ∣ T :=
    Nat.dvd_trans (pow_dvd_pow 2 hj) (Nat.dvd_of_mod_eq_zero hbin.2)
  exact Nat.mod_eq_zero_of_dvd hd

/-- Below 140737488355328992 the rounded quotient of a binary64 whole number by
1000 has the whole part of the exact quotient: the rounding error is at most
half a unit in the last place, and a binary64 value in that range is a multiple
of a power of two large enough to keep its thousandth further than that from the
next whole number. -/
theorem trunc_double_div_1000 (T : Nat) (hbin : isBinary64 T = true)
    (hT : T < 140737488355328992) : (double_div T 1000).trunc = T / 1000 := by
  by_cases h0 : T = 0
  · subst h0
    simp [double_div, Binary64.trunc]
  have hpos : 0 < T := by omega
  obtain ⟨_, hm2⟩ := double_div_mant T 1000 hpos
  obtain ⟨hb1, hb2⟩ := double_div_binade T 1000 hpos (by norm_num)
  have hneg : (double_div T 1000).exp ≤ 0 := by
    by_contra hcon
    obtain ⟨e, he⟩ := Int.eq_ofNat_of_zero_le (show 0 ≤ (double_div T 1000).exp by omega)
    have h1 := (hb1 e he).1
    have h2 : 1 ≤ 2 ^ e := Nat.one_le_two_pow
    have h3 : 2 ^ 52 * (1000 * 1) ≤ 2 ^ 52 * (1000 * 2 ^ e) :=
      Nat.mul_le_mul_left _ (Nat.mul_le_mul_left _ h2)
    norm_num at h3
    omega
  obtain ⟨f, hf⟩ := Int.eq_ofNat_of_zero_le (show 0 ≤ -(double_div T 1000).exp by omega)
  have he : (double_div T 1000).exp = -(f : Int) := by omega
  obtain ⟨hlo, _⟩ := hb2 f he
  have h5 : 5 ≤ f := by
    by_contra hcon
    have hf4 : f ≤ 4 := by omega
    interval_cases f <;> norm_num at hlo <;> omega
  have hnn : ¬ (0 : Int) ≤ -(f : Int) := by omega
  have hmant := hm2 f he
  simp only [Binary64.trunc, he, if_neg hnn, neg_neg, Int.toNat_ofNat, hmant]
  obtain ⟨hub, hlb⟩ := roundNearestEven_1000 (T * 2 ^ f)
  rcases (show f = 5 ∨ f = 6 ∨ f = 7 ∨ f = 8 ∨ 9 ≤ f by omega) with h | h | h | h | h
  · subst h
    have hd := isBinary64_mod T 4 hbin (by norm_num at hlo ⊢; omega)
    norm_num at hlo hub hlb hd ⊢
    have hTle : T ≤ 140737488355328976 := by omega
    have hq : T / 1000 = 140737488355328 := by omega
    rw [hq]
    omega
  · subst h
    have hd := isBinary64_mod T 3 hbin (by norm_num at hlo ⊢; omega)
    norm_num at hlo hub hlb hd ⊢
    omega
  · subst h
    have hd := isBinary64_mod T 2 hbin (by norm_num at hlo ⊢; omega)
    norm_num at hlo hub hlb hd ⊢
    omega
  · subst h
    have hd := isBinary64_mod T 1 hbin (by norm_num at hlo ⊢; omega)
    norm_num at hlo hub hlb hd ⊢
    omega
  · have hP : 2 ^ 9 ≤ 2 ^ f := Nat.pow_le_pow_right (by norm_num) h
    have hdm := Nat.div_add_mod T 1000
    have hr := Nat.mod_lt T (show 0 < 1000 by norm_num)
    have hY : T % 1000 * 2 ^ f ≤ 999 * 2 ^ f := Nat.mul_le_mul_right _ (by omega)
    have hTP : T * 2 ^ f = 1000 * (T / 1000 * 2 ^ f) + T % 1000 * 2 ^ f := by
      conv_lhs => rw [← hdm]
      ring
    have hsucc : (T / 1000 + 1) * 2 ^ f = T / 1000 * 2 ^ f + 2 ^ f := by ring
    apply Nat.div_eq_of_lt_le
    · omega
    · rw [hsucc]
      omega

/-- Counterexample for C5 as stated: the whole number 140737488355328992 is a
binary64 value and its thousandth lies in the range of a 64-bit `time_t`, but
`file_utime` passes 140737488355329 seconds to `utime`, one more than the whole
quotient 140737488355328, and that is the modification time then reported. -/
theorem file_utime_rounds_up_large_mtime :
    isBinary64 140737488355328992 = true ∧
    140737488355328992 / 1000 = 140737488355328 ∧
    140737488355328992 / 1000 < 2 ^ (64 - 1) ∧
    (file_utime (posixLibc 0) 64 "present" 140737488355328992 oneFile).calls =
      [.utime "present" (some ⟨140737488355329, 140737488355329⟩)] ∧
    st_mtime (file_utime (posixLibc 0) 64 "present" 140737488355328992 oneFile).world "present" =
      some 140737488355329 := by
  decide

/-- Below 2 ^ 53 every whole number is a binary64 value. -/
theorem isBinary64_of_lt (T : Nat) (hT : T < 2 ^ 53) : isBinary64 T = true := by
  have ha : ilog2 T ≤ 52 := log2Fuel_le T T 52 hT
  have h0 : ilog2 T - 52 = 0 := by omega
  have h1 : ilog2 T < 1024 := by omega
  simp [isBinary64, h0, h1, Nat.mod_one]

/-- The read-back depends on the file system: on one that clamps like ext4,
`file_utime` with 15032385536000 ms (below 2 ^ 53) passes 15032385536 s to
`utime`, the call succeeds, and the modification time then reported is
15032385535 s. -/
theorem file_utime_readback_clamped :
    (file_utime (clampingLibc 0) 64 "present" 15032385536000 oneFile).calls =
      [.utime "present" (some ⟨15032385536, 15032385536⟩)] ∧
    ((clampingLibc 0).utime "present" (some ⟨15032385536, 15032385536⟩) oneFile).1 = 0 ∧
    st_mtime (file_utime (clampingLibc 0) 64 "present" 15032385536000 oneFile).world "present" =
      some 15032385535 := by
  decide

/-- C5, amended. For every path and every whole-number binary64
epoch-millisecond value T below 140737488355328992 whose thousandth is in the
range of `time_t`, `file_utime` returns normally after exactly one `utime` call,
whose modification time is T div 1000 whole seconds and whose access time is
that same value, and it leaves the file system that call leaves. Hence, whenever
that `utime` call succeeds on a file system that stores the modification time it
is given unchanged, the modification time that a query `stat_mtime` reports
afterwards is T div 1000 seconds, which in milliseconds is T itself exactly when
T is a multiple of 1000. -/
theorem file_utime_whole_seconds {σ : Type} (libc : Libc σ)
    (stat_mtime : String → σ → Option Int) (TIME_T_BITS : Nat) (path : String)
    (T : Nat) (w : σ)
    (hbin : isBinary64 T = true) (hT : T < 140737488355328992)
    (hrange : T / 1000 < 2 ^ (TIME_T_BITS - 1)) :
    (file_utime libc TIME_T_BITS path T w).completion = .returned () ∧
    (file_utime libc TIME_T_BITS path T w).calls =
      [.utime path (some ⟨((T / 1000 : Nat) : Int), ((T / 1000 : Nat) : Int)⟩)] ∧
    (file_utime libc TIME_T_BITS path T w).world =
      (libc.utime path (some ⟨((T / 1000 : Nat) : Int), ((T / 1000 : Nat) : Int)⟩) w).2 ∧
    ((libc.utime path (some ⟨((T / 1000 : Nat) : Int), ((T / 1000 : Nat) : Int)⟩) w).1 = 0 →
      (∀ times : utimbuf, (libc.utime path (some times) w).1 = 0 →
        stat_mtime path (libc.utime path (some times) w).2 = some times.modtime) →
      stat_mtime path (file_utime libc TIME_T_BITS path T w).world =
        some ((T / 1000 : Nat) : Int)) ∧
    (T / 1000 * 1000 = T ↔ T % 1000 = 0) := by
  have hcast : static_cast_time_t TIME_T_BITS (double_div T 1000) = some ((T / 1000 : Nat) : Int) := by
    simp only [static_cast_time_t, trunc_double_div_1000 T hbin hT, if_pos hrange]
  have hworld : (file_utime libc TIME_T_BITS path T w).world =
      (libc.utime path (some ⟨((T / 1000 : Nat) : Int), ((T / 1000 : Nat) : Int)⟩) w).2 := by
    simp only [file_utime, hcast]
  refine ⟨?_, ?_, hworld, ?_, ?_⟩
  · simp only [file_utime, hcast]
  · simp only [file_utime, hcast]
  · intro hok hstore
    rw [hworld]
    exact hstore _ hok
  · omega

/-- Witness for C5, amended: 1234567 ms on a 64-bit `time_t`, on a file system
that holds the path and stores times unchanged. -/
theorem file_utime_whole_seconds_witness :
    (isBinary64 1234567 = true ∧ 1234567 < 140737488355328992 ∧
      1234567 / 1000 < 2 ^ (64 - 1)) ∧
    ((file_utime (posixLibc 7) 64 "present" 1234567 oneFile).completion = .returned () ∧
    (file_utime (posixLibc 7) 64 "present" 1234567 oneFile).calls =
      [.utime "present" (some ⟨((1234567 / 1000 : Nat) : Int), ((1234567 / 1000 : Nat) : Int)⟩)] ∧
    (file_utime (posixLibc 7) 64 "present" 1234567 oneFile).world =
      ((posixLibc 7).utime "present"
        (some ⟨((1234567 / 1000 : Nat) : Int), ((1234567 / 1000 : Nat) : Int)⟩) oneFile).2 ∧
    st_mtime (file_utime (posixLibc 7) 64 "present" 1234567 oneFile).world "present" =
      some ((1234567 / 1000 : Nat) : Int) ∧
    (1234567 / 1000 * 1000 = 1234567 ↔ 1234567 % 1000 = 0)) :=
  ⟨⟨by decide, by decide, by decide⟩,
    (file_utime_whole_seconds (posixLibc 7) (fun p fs => st_mtime fs p) 64 "present" 1234567
      oneFile (by decide) (by decide) (by decide)).1,
    (file_utime_whole_seconds (posixLibc 7) (fun p fs => st_mtime fs p) 64 "present" 1234567
      oneFile (by decide) (by decide) (by decide)).2.1,
    (file_utime_whole_seconds (posixLibc 7) (fun p fs => st_mtime fs p) 64 "present" 1234567
      oneFile (by decide) (by decide) (by decide)).2.2.1,
    (file_utime_whole_seconds (posixLibc 7) (fun p fs => st_mtime fs p) 64 "present" 1234567
      oneFile (by decide) (by decide) (by decide)).2.2.2.1 (by decide)
      (fun times _ => by simp [posixLibc, oneFile, st_mtime]),
    (file_utime_whole_seconds (posixLibc 7) (fun p fs => st_mtime fs p) 64 "present" 1234567
      oneFile (by decide) (by decide) (by decide)).2.2.2.2⟩

/-- Counterexample for C7 as stated: on a file system without the path `missing`
the `utime` calls fail with -1, on the path `present` they succeed with 0, and in
both cases `file_utime` and `file_utime_now` return normally: the caller observes
the same completion. -/
theorem failed_utime_is_not_reported :
    ((posixLibc 0).utime "missing" (some ⟨1, 1⟩) oneFile).1 = -1 ∧
    ((posixLibc 0).utime "present" (some ⟨1, 1⟩) oneFile).1 = 0 ∧
    (file_utime (posixLibc 0) 64 "missing" 1000 oneFile).completion = .returned () ∧
    (file_utime (posixLibc 0) 64 "present" 1000 oneFile).completion = .returned () ∧
    ((posixLibc 0).utime "missing" none oneFile).1 = -1 ∧
    ((posixLibc 0).utime "present" none oneFile).1 = 0 ∧
    (file_utime_now (posixLibc 0) "missing" oneFile).completion = .returned () ∧
    (file_utime_now (posixLibc 0) "present" oneFile).completion = .returned () := by
  decide

/-- C7, amended. `file_utime` and `file_utime_now` do not read the value that
`utime` returns: for every C library, whatever its `utime` returns, and every
path, `file_utime_now` returns normally, and `file_utime` returns normally
whenever the conversion of the time to `time_t` is defined. Each makes exactly one
`utime` call and leaves the file system that call leaves. No failure reaches the
caller. -/
theorem utime_result_is_discarded {σ : Type} (libc : Libc σ) (TIME_T_BITS : Nat) (path : String)
    (mtime : Nat) (w : σ) (sec : Int)
    (hcast : static_cast_time_t TIME_T_BITS (double_div mtime 1000) = some sec) :
    file_utime libc TIME_T_BITS path mtime w =
      ⟨.returned (), [.utime path (some ⟨sec, sec⟩)],
        (libc.utime path (some ⟨sec, sec⟩) w).2⟩ ∧
    file_utime_now libc path w =
      ⟨.returned (), [.utime path none], (libc.utime path none w).2⟩ := by
  constructor
  · simp only [file_utime, hcast]
  · rfl

/-- Witness for C7, amended: a missing path, for which `utime` fails. -/
theorem utime_result_is_discarded_witness :
    static_cast_time_t 64 (double_div 2500 1000) = some 2 ∧
    (file_utime (posixLibc 9) 64 "missing" 2500 oneFile =
      ⟨.returned (), [.utime "missing" (some ⟨2, 2⟩)],
        ((posixLibc 9).utime "missing" (some ⟨2, 2⟩) oneFile).2⟩ ∧
    file_utime_now (posixLibc 9) "missing" oneFile =
      ⟨.returned (), [.utime "missing" none], ((posixLibc 9).utime "missing" none oneFile).2⟩) :=
  ⟨by decide, utime_result_is_discarded (posixLibc 9) 64 "missing" 2500 oneFile 2 (by decide)⟩

/-! ## Theorems: executable path -/

/-- C6, at the failing input. When every operating-system query fails, the
Apple and Linux branches of `executable_path` return the null string, but the
Windows branch returns the empty string: `GetModuleFileNameA` returns 0, its
result is not read, and the zero-initialised array is converted. -/
theorem executable_path_win32_empty_on_failure :
    (failingOs.GetModuleFileNameA (List.replicate failingOs.MAX_PATH 0) failingOs.MAX_PATH).2 = 0 ∧
    executable_path .win32 failingOs = .returned (some []) ∧
    executable_path .apple failingOs = .returned none ∧
    executable_path .linux failingOs = .returned none := by
  decide

/-- Writing the terminator right after `t` in an array that starts with the
NUL-free characters `t` leaves a C string that reads back as `t`. -/
theorem terminate_after (t : List Nat) (c : Nat) (rest : List Nat) (hnz : 0 ∉ t) :
    0 ∈ (t ++ c :: rest).set t.length 0 ∧
    ((t ++ c :: rest).set t.length 0).takeWhile (fun c => c != 0) = t := by
  induction t with
  | nil => simp [List.takeWhile]
  | cons a t ih =>
    have ha : a ≠ 0 := fun h => hnz (by simp [h])
    have ht : 0 ∉ t := fun h => hnz (by simp [h])
    obtain ⟨h1, h2⟩ := ih ht
    constructor
    · simp only [List.cons_append, List.length_cons, List.set_cons_succ, List.mem_cons]
      exact Or.inr h1
    · simp only [List.cons_append, List.length_cons, List.set_cons_succ]
      rw [List.takeWhile_cons_of_pos (by simpa using ha), h2]

/-- The Windows branch when the query succeeds: the array holds the path and
its terminator, and the result is the path. -/
theorem executable_path_win32_success (os : Os) (t : List Nat) (rest : List Nat) (n : Nat)
    (hread : os.GetModuleFileNameA (List.replicate os.MAX_PATH 0) os.MAX_PATH =
      (t ++ 0 :: rest, n))
    (hnz : 0 ∉ t) :
    executable_path .win32 os = .returned (some t) := by
  have h := terminate_after t 0 rest hnz
  have hset : (t ++ 0 :: rest).set t.length 0 = t ++ 0 :: rest := by
    clear h hread
    induction t with
    | nil => rfl
    | cons a t ih =>
      have ht : 0 ∉ t := fun h => hnz (by simp [h])
      simp only [List.cons_append, List.length_cons, List.set_cons_succ, ih ht]
  rw [hset] at h
  simp [executable_path, hread, String_of_chars, h.1, h.2]

/-- On Linux a path of `PATH_MAX` characters or more is not returned: `readlink`
fails, no terminator is written, and the result is null. -/
theorem executable_path_linux_long_path (len : Nat) (h : 4096 ≤ len) :
    executable_path .linux (linuxOs len) = .returned none := by
  have hl : 4096 ≤ (List.replicate len 97).length := by
    rw [List.length_replicate]
    exact h
  simp only [executable_path, linuxOs, procReadlink, if_pos hl]
  simp

/-- C8. For every HRESULT that `SetProcessDpiAwareness` returns,
`NativeWindows_init` returns normally; it writes to stderr exactly when the
HRESULT is negative, and then exactly one line, the diagnostic with the message
text of that HRESULT; on success it writes nothing. -/
theorem NativeWindows_init_logs_iff_failed (api : WinApi) :
    (NativeWindows_init api).1 = .returned () ∧
    ((NativeWindows_init api).2 ≠ [] ↔
      api.SetProcessDpiAwareness PROCESS_PER_MONITOR_DPI_AWARE < 0) ∧
    (api.SetProcessDpiAwareness PROCESS_PER_MONITOR_DPI_AWARE < 0 →
      (NativeWindows_init api).2 =
        ["SetProcessDpiAwareness: " ++
          api.ErrorMessage (api.SetProcessDpiAwareness PROCESS_PER_MONITOR_DPI_AWARE) ++ "\n"]) ∧
    (0 ≤ api.SetProcessDpiAwareness PROCESS_PER_MONITOR_DPI_AWARE →
      (NativeWindows_init api).2 = []) := by
  by_cases h : api.SetProcessDpiAwareness PROCESS_PER_MONITOR_DPI_AWARE < 0
  · simp [NativeWindows_init, FAILED, h]
  · have h2 : 0 ≤ api.SetProcessDpiAwareness PROCESS_PER_MONITOR_DPI_AWARE := by omega
    simp [NativeWindows_init, FAILED, h, h2]

end Ceramic
